import Mathlib

/-!
# Book CSV editor: view-model of `src/src/App.jsx`

A shallow embedding of the state held by the `App` component (the original and
working datasets, the edit map, the view state and the pagination state) and of
the handlers and derived values that act on it: `handleCellEdit`,
`resetAllEdits`, `toggleSort`, `filteredSortedData`, `pageCount`,
`currentPageRows`, the page navigation controls and the two load paths.

Every handler is a function from the state of the render it closes over to the
state after its queued updates are applied.  The `loading` and `notFound` flags
only drive indicators and are left out.  Functions of the host (string
lower-casing, collation, numeric conversion) are taken as a parameter `Host`.
-/

namespace BookApp

/-! ## Data model -/

/-- The five editable columns, in the order of the `columns` array. -/
inductive Column where
  | Title
  | Author
  | Genre
  | PublishedYear
  | ISBN
  deriving DecidableEq, Repr

/-- The `columns` array of the component. -/
def columns : List Column :=
  [Column.Title, Column.Author, Column.Genre, Column.PublishedYear, Column.ISBN]

/-- A record: an identifier and five text fields. -/
structure Row where
  id : Nat
  Title : String
  Author : String
  Genre : String
  PublishedYear : String
  ISBN : String
  deriving DecidableEq, Repr

/-- Property read `r[c]` for one of the five columns. -/
def Row.get (r : Row) : Column → String
  | Column.Title => r.Title
  | Column.Author => r.Author
  | Column.Genre => r.Genre
  | Column.PublishedYear => r.PublishedYear
  | Column.ISBN => r.ISBN

/-- Object spread with one overwritten property: `{ ...r, [col]: value }`. -/
def Row.set (r : Row) (col : Column) (value : String) : Row :=
  match col with
  | Column.Title => { r with Title := value }
  | Column.Author => { r with Author := value }
  | Column.Genre => { r with Genre := value }
  | Column.PublishedYear => { r with PublishedYear := value }
  | Column.ISBN => { r with ISBN := value }

/-- Sort direction strings `"asc"` and `"desc"`. -/
inductive Dir where
  | asc
  | desc
  deriving DecidableEq, Repr

/-- The `sortBy` state `{ col, dir }`; `none` is `null`. -/
structure SortBy where
  col : Option Column
  dir : Option Dir
  deriving DecidableEq, Repr

/-- The `editedMap` state: a JavaScript `Map` from row identifier to the object
`changed`, kept as its entries in insertion order; `changed` is kept as its list
of keys. -/
abbrev EditedMap := List (Nat × List Column)

/-- `Map.prototype.has`. -/
def mapHas (m : EditedMap) (k : Nat) : Bool :=
  m.any (fun e => e.1 == k)

/-- `Map.prototype.set`: an existing key keeps its place and takes the new value,
a new key is appended. -/
def mapSet (m : EditedMap) (k : Nat) (v : List Column) : EditedMap :=
  if mapHas m k then m.map (fun e => if e.1 == k then (k, v) else e) else m ++ [(k, v)]

/-- `Map.prototype.delete`. -/
def mapDelete (m : EditedMap) (k : Nat) : EditedMap :=
  m.filter (fun e => e.1 != k)

/-- The keys of the map. -/
def mapKeys (m : EditedMap) : List Nat :=
  m.map Prod.fst

/-- The component state. `page` is an integer because the page entry box accepts
any number; `pageSize` is one of the positive choices of the selector. -/
structure State where
  originalData : List Row
  data : List Row
  pageSize : Nat
  page : Int
  query : String
  genreFilter : String
  sortBy : SortBy
  editedMap : EditedMap
  deriving DecidableEq, Repr

/-- The state of the first render: the `useState` initial values. -/
def initialState : State :=
  { originalData := [], data := [], pageSize := 50, page := 1, query := "",
    genreFilter := "", sortBy := { col := none, dir := none }, editedMap := [] }

/-! ## Loading -/

/-- A row as delivered by the CSV parser: a header that is absent from the file
leaves the property undefined (`none`). -/
structure ParsedRow where
  Title : Option String
  Author : Option String
  Genre : Option String
  PublishedYear : Option String
  ISBN : Option String
  deriving DecidableEq, Repr

/-- The row built for parsed row `r` at index `i`: `r.X ?? ""` for each field. -/
def rowOfParsed (i : Nat) (r : ParsedRow) : Row :=
  { id := i, Title := r.Title.getD "", Author := r.Author.getD "", Genre := r.Genre.getD "",
    PublishedYear := r.PublishedYear.getD "", ISBN := r.ISBN.getD "" }

/-- The `complete` callback of `handleFileUpload`. -/
def uploadComplete (s : State) (results : List ParsedRow) : State :=
  let rows := results.enum.map (fun ir => rowOfParsed ir.1 ir.2)
  { s with originalData := rows, data := rows, editedMap := [], page := 1 }

/-- The values drawn from the generator for one synthetic book. -/
structure GeneratedBook where
  title : String
  author : String
  genre : String
  year : Nat
  isbn : String
  deriving DecidableEq, Repr

/-- The row pushed by the loop of `generateBooks` at index `i`. -/
def rowOfGenerated (i : Nat) (b : GeneratedBook) : Row :=
  { id := i, Title := b.title, Author := b.author, Genre := b.genre,
    PublishedYear := toString b.year, ISBN := b.isbn }

/-- The timer callback of `generateBooks`, given the generated values. -/
def generateComplete (s : State) (books : List GeneratedBook) : State :=
  let rows := books.enum.map (fun ib => rowOfGenerated ib.1 ib.2)
  { s with originalData := rows, data := rows, editedMap := [], page := 1 }

/-! ## Editing -/

/-- An exception thrown by a handler. -/
inductive JsError where
  | typeError
  deriving DecidableEq, Repr

/-- The keys of the object `changed` built by the `columns.forEach` loop: the
columns where the new row differs from `originalRow?.[c] ?? ""`. -/
def changedColumns (newRow : Row) (originalRow : Option Row) : List Column :=
  columns.filter (fun c =>
    newRow.get c != (match originalRow with
      | some o => o.get c
      | none => ""))

/-- The handler `handleCellEdit(rowId, col, value)`. `newData.find(...)` has no
optional chaining: when no row has the identifier, reading `[c]` of `undefined`
throws a `TypeError` in the first iteration of the loop (the queued
`setData(newData)` then holds a copy equal to `data`). -/
def handleCellEdit (s : State) (rowId : Nat) (col : Column) (value : String) :
    Except JsError State :=
  let newData := s.data.map (fun r => if r.id = rowId then r.set col value else r)
  let originalRow := s.originalData.find? (fun r => r.id == rowId)
  match newData.find? (fun r => r.id == rowId) with
  | none => Except.error JsError.typeError
  | some newRow =>
    let changed := changedColumns newRow originalRow
    let m := if changed.length > 0 then mapSet s.editedMap rowId changed
             else mapDelete s.editedMap rowId
    Except.ok { s with data := newData, editedMap := m }

/-- The handler `resetAllEdits`: a copy of every original row, and a new map. -/
def resetAllEdits (s : State) : State :=
  { s with data := s.originalData.map (fun r => { r with }), editedMap := [] }

/-- States reached from a load by cell edits that complete and by resets. -/
inductive Reachable : State → Prop where
  | upload (s : State) (results : List ParsedRow) : Reachable (uploadComplete s results)
  | generate (s : State) (books : List GeneratedBook) : Reachable (generateComplete s books)
  | edit {s t : State} (rowId : Nat) (col : Column) (value : String) :
      Reachable s → handleCellEdit s rowId col value = Except.ok t → Reachable t
  | reset {s : State} : Reachable s → Reachable (resetAllEdits s)

/-! ## Sort toggle -/

/-- The updater passed to `setSortBy` by `toggleSort(col)`. -/
def toggleSort (col : Column) (prev : SortBy) : SortBy :=
  if prev.col ≠ some col then { col := some col, dir := some Dir.asc }
  else if prev.dir = some Dir.asc then { col := some col, dir := some Dir.desc }
  else { col := none, dir := none }

/-! ## View pipeline -/

/-- Functions of the JavaScript host used by the view pipeline.
`toLowerCase` is `String.prototype.toLowerCase`; `localeCompare` is
`String.prototype.localeCompare`, of which only the sign is used; `toNumber s`
is `some n` when `Number(s)` is the integer `n` and `none` when it is `NaN`
(text converting to a fraction or an infinity is outside this integer model). -/
structure Host where
  toLowerCase : String → String
  localeCompare : String → String → Int
  toNumber : String → Option Int

/-- The test `s.includes(q)`: `q` occurs in `s` as a contiguous run. -/
def includes (s q : String) : Bool :=
  decide (q.data <:+: s.data)

/-- The callback of the text filter, for the lower-cased query `q`. -/
def matchesQuery (h : Host) (q : String) (r : Row) : Bool :=
  includes (h.toLowerCase r.Title) q ||
  includes (h.toLowerCase r.Author) q ||
  includes (h.toLowerCase r.Genre) q ||
  includes (h.toLowerCase r.ISBN) q ||
  includes (h.toLowerCase r.PublishedYear) q

/-- The comparator passed to `sort`, with `dir` equal to `1` or `-1`. A `NaN`
difference is read by `sort` as `0`. -/
def compareRows (h : Host) (col : Column) (dir : Int) (a b : Row) : Int :=
  let va := a.get col
  let vb := b.get col
  if col = Column.PublishedYear ∨ col = Column.ISBN then
    match h.toNumber va, h.toNumber vb with
    | some x, some y => (x - y) * dir
    | _, _ => 0
  else h.localeCompare va vb * dir

/-- Insertion of `x` in front of the first element it does not follow. -/
def sortInsert {α : Type} (cmp : α → α → Int) (x : α) : List α → List α
  | [] => [x]
  | y :: ys => if cmp x y ≤ 0 then x :: y :: ys else y :: sortInsert cmp x ys

/-- The call `[...d].sort(cmp)`. `Array.prototype.sort` is a stable sort; for a
consistent comparator its result does not depend on the algorithm, and it is
embedded as a stable insertion sort. -/
def arraySort {α : Type} (cmp : α → α → Int) (d : List α) : List α :=
  d.foldr (sortInsert cmp) []

/-- The memoised value `filteredSortedData`. -/
def filteredSortedData (h : Host) (data : List Row) (query genreFilter : String)
    (sortBy : SortBy) : List Row :=
  let d := data
  let d := if query ≠ "" then d.filter (matchesQuery h (h.toLowerCase query)) else d
  let d := if genreFilter ≠ "" then d.filter (fun r => r.Genre == genreFilter) else d
  match sortBy.col with
  | some col =>
    let dir : Int := if sortBy.dir = some Dir.asc then 1 else -1
    arraySort (compareRows h col dir) d
  | none => d

/-- The visible row sequence of a state. -/
def visibleRows (h : Host) (s : State) : List Row :=
  filteredSortedData h s.data s.query s.genreFilter s.sortBy

/-! ## Pagination -/

/-- The value `Math.max(1, Math.ceil(length / pageSize))` for a positive
`pageSize`; the quotient of two array-sized naturals is rounded up exactly. -/
def pageCount (length pageSize : Nat) : Nat :=
  max 1 ((length + pageSize - 1) / pageSize)

/-- The page count of a state. -/
def statePageCount (h : Host) (s : State) : Nat :=
  pageCount (visibleRows h s).length s.pageSize

/-- `Array.prototype.slice(start, stop)` on integer arguments: a negative
argument counts from the end, and both are clamped to the bounds. -/
def jsSlice {α : Type} (xs : List α) (start stop : Int) : List α :=
  let len : Int := xs.length
  let k : Int := if start < 0 then max (len + start) 0 else min start len
  let fin : Int := if stop < 0 then max (len + stop) 0 else min stop len
  (xs.drop k.toNat).take (fin - k).toNat

/-- The memoised value `currentPageRows`. -/
def currentPageRows {α : Type} (visible : List α) (page : Int) (pageSize : Nat) : List α :=
  let start : Int := (page - 1) * pageSize
  jsSlice visible start (start + pageSize)

/-- The effect with dependency `[pageCount]`: it runs when the page count differs
from the one of the previous render, and then sets the page to 1 if
`page > pageCount`. -/
def pageCountEffect (h : Host) (prevPageCount : Nat) (s : State) : State :=
  if statePageCount h s = prevPageCount then s
  else if s.page > (statePageCount h s : Int) then { s with page := 1 } else s

/-- The button First: `setPage(1)`. -/
def firstPage (s : State) : State :=
  { s with page := 1 }

/-- The button Prev: `setPage((p) => Math.max(1, p - 1))`. -/
def prevPage (s : State) : State :=
  { s with page := max 1 (s.page - 1) }

/-- The button Next: `setPage((p) => Math.min(pageCount, p + 1))`. -/
def nextPage (h : Host) (s : State) : State :=
  { s with page := min (statePageCount h s : Int) (s.page + 1) }

/-- The button Last: `setPage(pageCount)`. -/
def lastPage (h : Host) (s : State) : State :=
  { s with page := (statePageCount h s : Int) }

/-- The page entry box: `setPage(Number(e.target.value)) || 1`. The `|| 1`
applies to the value returned by `setPage`, not to its argument, so the page
becomes the entered number as it is; an empty entry (`none`) converts to 0. -/
def goToPage (s : State) (entry : Option Int) : State :=
  { s with page := entry.getD 0 }

/-- The search box: `setQuery(e.target.value)`. -/
def setQuery (s : State) (q : String) : State :=
  { s with query := q }

/-- The genre selector: `setGenreFilter(e.target.value)`. -/
def setGenreFilter (s : State) (g : String) : State :=
  { s with genreFilter := g }

/-- The rows-per-page selector: `setPageSize(Number(e.target.value))`. -/
def setPageSize (s : State) (n : Nat) : State :=
  { s with pageSize := n }

/-! ## A concrete host, for evaluation -/

/-- Lexicographic comparison of two code point sequences. -/
def lexCompare : List Nat → List Nat → Int
  | [], [] => 0
  | [], _ :: _ => -1
  | _ :: _, [] => 1
  | x :: xs, y :: ys => if x < y then -1 else if y < x then 1 else lexCompare xs ys

/-- Collation by code point order. -/
def codePointCompare (a b : String) : Int :=
  lexCompare (a.data.map Char.toNat) (b.data.map Char.toNat)

/-- Conversion of a run of decimal digits (the empty text converts to 0). -/
def digitsToNumber (s : String) : Option Int :=
  if s.data.all Char.isDigit then
    some (s.data.foldl (fun n c => 10 * n + ((c.toNat - 48 : Nat) : Int)) 0)
  else none

/-- A host restricted to ASCII: lower-casing of `A-Z`, code point collation and
conversion of digit runs. -/
def asciiHost : Host :=
  { toLowerCase := fun s => String.mk (s.data.map Char.toLower), localeCompare := codePointCompare,
    toNumber := digitsToNumber }

/-! ## Predicates of the specification and concrete states -/

/-- The text predicate in the words of the specification: the query is empty, or
the lower-cased query is a substring of the lower-cased `Title`, `Author`,
`Genre`, `ISBN` or `PublishedYear` text. -/
def textPredicate (h : Host) (query : String) (r : Row) : Bool :=
  decide (query = "") ||
    (columns.any fun c => decide ((h.toLowerCase query).data <:+: (h.toLowerCase (r.get c)).data))

/-- The category predicate in the words of the specification: the genre filter
is empty, or `Genre` equals it exactly. -/
def categoryPredicate (genreFilter : String) (r : Row) : Bool :=
  decide (genreFilter = "") || decide (r.Genre = genreFilter)

/-- A comparator is consistent on the elements of `l`: the signs of `cmp a b`
and `cmp b a` are opposite, and `cmp a b ≤ 0` is transitive. -/
def ConsistentOn {α : Type} (cmp : α → α → Int) (l : List α) : Prop :=
  (∀ a ∈ l, ∀ b ∈ l, 0 < cmp a b ↔ cmp b a < 0) ∧
  (∀ a ∈ l, ∀ b ∈ l, ∀ c ∈ l, cmp a b ≤ 0 → cmp b c ≤ 0 → cmp a c ≤ 0)

/-- A collation is a consistent comparator of all texts. -/
def ConsistentCollation (cmp : String → String → Int) : Prop :=
  (∀ a b, 0 < cmp a b ↔ cmp b a < 0) ∧
  (∀ a b c, cmp a b ≤ 0 → cmp b c ≤ 0 → cmp a c ≤ 0)

/-- Two parsed rows: `A` is fiction, `B` is fantasy and has no `ISBN` column. -/
def sampleParsed : List ParsedRow :=
  [ { Title := some "A", Author := some "Ann", Genre := some "Fiction",
      PublishedYear := some "1999", ISBN := some "9780000000001" },
    { Title := some "B", Author := some "Bob", Genre := some "Fantasy",
      PublishedYear := some "2001", ISBN := none } ]

/-- The state after uploading `sampleParsed` into the first render. -/
def sampleState : State :=
  uploadComplete initialState sampleParsed

/-- The sample state after the title of row 0 was edited to `A2`. -/
def sampleEdited : State :=
  { sampleState with
    data := [ { id := 0, Title := "A2", Author := "Ann", Genre := "Fiction",
                PublishedYear := "1999", ISBN := "9780000000001" },
              { id := 1, Title := "B", Author := "Bob", Genre := "Fantasy",
                PublishedYear := "2001", ISBN := "" } ],
    editedMap := [(0, [Column.Title])] }

/-- Eleven uploaded rows shown ten to a page, after the page entry box was
emptied and a query that matches no row was typed. -/
def emptiedEntryState : State :=
  setQuery
    (goToPage
      (setPageSize
        (uploadComplete initialState
          (List.replicate 11
            { Title := some "T", Author := none, Genre := none, PublishedYear := none,
              ISBN := none }))
        10)
      none)
    "zzz"

/-- The invariant kept by loads, cell edits and resets: both datasets carry the
same identifiers in the same order; every entry of the edit map holds the
non-empty list of the columns in which the working row of its key differs from
the original row; and every identifier whose rows differ is a key. -/
def EditInvariant (s : State) : Prop :=
  s.data.map Row.id = s.originalData.map Row.id ∧
  (∀ e ∈ s.editedMap, ∃ r o,
    s.data.find? (fun x => x.id == e.1) = some r ∧
    s.originalData.find? (fun x => x.id == e.1) = some o ∧
    e.2 = changedColumns r (some o) ∧ e.2 ≠ []) ∧
  (∀ k r o,
    s.data.find? (fun x => x.id == k) = some r →
    s.originalData.find? (fun x => x.id == k) = some o →
    changedColumns r (some o) ≠ [] → k ∈ mapKeys s.editedMap)

/-- The number of elements of `L` that come strictly before `a`. -/
def rankIn {α : Type} (cmp : α → α → Int) (L : List α) (a : α) : Nat :=
  L.countP (fun y => decide (cmp y a < 0))

/-- The filtered rows: the pipeline without a sort. -/
def filteredRows (h : Host) (data : List Row) (query genreFilter : String) : List Row :=
  filteredSortedData h data query genreFilter { col := none, dir := none }

/-- The visible rows under an ascending sort by `col`. -/
def ascendingRows (h : Host) (data : List Row) (query genreFilter : String) (col : Column) :
    List Row :=
  filteredSortedData h data query genreFilter { col := some col, dir := some Dir.asc }

/-- The visible rows under a descending sort by `col`. -/
def descendingRows (h : Host) (data : List Row) (query genreFilter : String) (col : Column) :
    List Row :=
  filteredSortedData h data query genreFilter { col := some col, dir := some Dir.desc }

/-- The number a numeric column holds, in the words of the specification:
the text of the column converted to a number (text that is no number counts
as 0, the fallback the specification suggests). -/
def numberKey (h : Host) (text : String) : Int :=
  (h.toNumber text).getD 0

/-- The order of the keys of two rows in `col`, in the words of the
specification: `Title`, `Author` and `Genre` are compared as text under the
collation, `PublishedYear` and `ISBN` are compared as numbers. The value is
negative when the key of `a` comes before the key of `b`, zero when the keys are
equal and positive when it comes after. -/
def keyCompare (h : Host) (col : Column) (a b : Row) : Int :=
  match col with
  | Column.Title => h.localeCompare a.Title b.Title
  | Column.Author => h.localeCompare a.Author b.Author
  | Column.Genre => h.localeCompare a.Genre b.Genre
  | Column.PublishedYear => numberKey h a.PublishedYear - numberKey h b.PublishedYear
  | Column.ISBN => numberKey h a.ISBN - numberKey h b.ISBN

/-- Three rows of which the first and the last share the year 2001 and the genre
`Fiction`. -/
def tiedYears : List Row :=
  [ { id := 0, Title := "C", Author := "Ann", Genre := "Fiction", PublishedYear := "2001",
      ISBN := "3" },
    { id := 1, Title := "A", Author := "Bob", Genre := "Fantasy", PublishedYear := "1999",
      ISBN := "1" },
    { id := 2, Title := "B", Author := "Cyd", Genre := "Fiction", PublishedYear := "2001",
      ISBN := "2" } ]

/-! ## Theorems -/

/-- C2 (counterexample): in the sample state, whose rows have identifiers 0 and
1, no row carries the identifier 7, and `handleCellEdit(7, "Title", "x")` does
not complete as a no-op: it throws a `TypeError`. -/
theorem handleCellEdit_unknown_id_throws :
    (∀ r ∈ sampleState.data, r.id ≠ 7) ∧
    handleCellEdit sampleState 7 Column.Title "x" = Except.error JsError.typeError ∧
    handleCellEdit sampleState 7 Column.Title "x" ≠ Except.ok sampleState := by
  refine ⟨by decide, rfl, ?_⟩
  intro hok
  cases hok

/-- For every state and every identifier carried by no row of the working
dataset, `handleCellEdit` throws. -/
theorem handleCellEdit_throws_of_unknown (s : State) (rowId : Nat) (col : Column)
    (value : String) (hid : ∀ r ∈ s.data, r.id ≠ rowId) :
    handleCellEdit s rowId col value = Except.error JsError.typeError := by
  have hnone : (s.data.map (fun r => if r.id = rowId then r.set col value else r)).find?
      (fun r => r.id == rowId) = none := by
    rw [List.find?_eq_none]
    intro x hx
    rw [List.mem_map] at hx
    obtain ⟨r, hr, rfl⟩ := hx
    have hne := hid r hr
    simp [hne]
  simp only [handleCellEdit, hnone]

/-- C3 (evaluation at the failing input): in the sample state the page count is
1, and the page entry box sets the page to 0 for an empty entry, to 7 for the
entry 7 and to -2 for the entry -2: none is clamped into `[1, pageCount]`. -/
theorem goToPage_not_clamped :
    statePageCount asciiHost sampleState = 1 ∧
    (goToPage sampleState none).page = 0 ∧
    (goToPage sampleState (some 7)).page = 7 ∧
    (goToPage sampleState (some (-2))).page = -2 ∧
    statePageCount asciiHost (goToPage sampleState none) = 1 := by
  decide

/-- The four navigation buttons keep an in-range page in range. -/
theorem navigation_buttons_in_range (h : Host) (s : State)
    (hlo : 1 ≤ s.page) (hhi : s.page ≤ (statePageCount h s : Int)) :
    (1 ≤ (firstPage s).page ∧ (firstPage s).page ≤ (statePageCount h (firstPage s) : Int)) ∧
    (1 ≤ (prevPage s).page ∧ (prevPage s).page ≤ (statePageCount h (prevPage s) : Int)) ∧
    (1 ≤ (nextPage h s).page ∧
      (nextPage h s).page ≤ (statePageCount h (nextPage h s) : Int)) ∧
    (1 ≤ (lastPage h s).page ∧
      (lastPage h s).page ≤ (statePageCount h (lastPage h s) : Int)) := by
  have hpc : (1 : Int) ≤ (statePageCount h s : Int) := by
    have : 1 ≤ statePageCount h s := by
      unfold statePageCount pageCount
      exact le_max_left _ _
    exact_mod_cast this
  have e1 : statePageCount h (firstPage s) = statePageCount h s := rfl
  have e2 : statePageCount h (prevPage s) = statePageCount h s := rfl
  have e3 : statePageCount h (nextPage h s) = statePageCount h s := rfl
  have e4 : statePageCount h (lastPage h s) = statePageCount h s := rfl
  rw [e1, e2, e3, e4]
  simp only [firstPage, prevPage, nextPage, lastPage]
  refine ⟨⟨le_refl _, hpc⟩, ⟨le_max_left _ _, ?_⟩, ⟨?_, min_le_left _ _⟩, hpc, le_refl _⟩
  · exact max_le hpc (by omega)
  · exact le_min hpc (by omega)

/-! ### Cell edits and resets -/

theorem Row.get_set_same (r : Row) (col : Column) (value : String) :
    (r.set col value).get col = value := by
  cases col <;> rfl

theorem Row.get_set_other (r : Row) (col c : Column) (value : String) (hc : c ≠ col) :
    (r.set col value).get c = r.get c := by
  cases col <;> cases c <;> first | rfl | exact absurd rfl hc

theorem Row.id_set (r : Row) (col : Column) (value : String) :
    (r.set col value).id = r.id := by
  cases col <;> rfl

/-- The identifier of every row is kept by the map of `handleCellEdit`. -/
theorem editMap_ids (data : List Row) (rowId : Nat) (col : Column) (value : String) :
    (data.map (fun r => if r.id = rowId then r.set col value else r)).map Row.id =
      data.map Row.id := by
  rw [List.map_map]
  apply List.map_congr_left
  intro r _
  by_cases hr : r.id = rowId
  · simp [hr, Row.id_set]
  · simp [hr]

/-- Searching the edited data by identifier: the edited identifier finds the
edited first match, any other identifier finds what it found before. -/
theorem find_editMap (data : List Row) (rowId : Nat) (col : Column) (value : String)
    (k : Nat) :
    (data.map (fun r => if r.id = rowId then r.set col value else r)).find?
        (fun r => r.id == k) =
      (data.find? (fun r => r.id == k)).map
        (fun r => if r.id = rowId then r.set col value else r) := by
  have hp : ((fun r : Row => r.id == k) ∘
      (fun r => if r.id = rowId then r.set col value else r)) = (fun r : Row => r.id == k) := by
    funext r
    by_cases hr : r.id = rowId
    · simp [hr, Row.id_set]
    · simp [hr]
  rw [List.find?_map, hp]

/-- The result of `handleCellEdit` when a row carries the identifier. -/
theorem handleCellEdit_ok (s : State) (rowId : Nat) (col : Column) (value : String)
    (r : Row) (hr : s.data.find? (fun r => r.id == rowId) = some r) :
    handleCellEdit s rowId col value = Except.ok
      { s with
        data := s.data.map (fun r => if r.id = rowId then r.set col value else r),
        editedMap :=
          if (changedColumns (r.set col value)
                (s.originalData.find? (fun r => r.id == rowId))).length > 0
          then mapSet s.editedMap rowId
            (changedColumns (r.set col value) (s.originalData.find? (fun r => r.id == rowId)))
          else mapDelete s.editedMap rowId } := by
  have hid : r.id = rowId := by
    have := List.find?_some hr
    simpa using this
  simp only [handleCellEdit, find_editMap, hr, Option.map_some', hid, if_true]

/-- C8: for every state, every identifier carried by a row of the working
dataset, every column and every value, `handleCellEdit` completes; in the new
working dataset the rows stand in the same number and order with the same
identifiers, every row with that identifier has the column equal to the value
and its other fields unchanged, every other row is unchanged, the row found by
the identifier has the column equal to the value, and the original dataset is
unchanged. -/
theorem handleCellEdit_writes_one_cell (s : State) (rowId : Nat) (col : Column)
    (value : String) (hid : ∃ r ∈ s.data, r.id = rowId) :
    ∃ t, handleCellEdit s rowId col value = Except.ok t ∧
      t.originalData = s.originalData ∧
      t.data.length = s.data.length ∧
      t.data.map Row.id = s.data.map Row.id ∧
      List.Forall₂
        (fun old new =>
          (old.id = rowId →
            new.get col = value ∧ ∀ c, c ≠ col → new.get c = old.get c) ∧
          (old.id ≠ rowId → new = old))
        s.data t.data ∧
      (∃ new, t.data.find? (fun r => r.id == rowId) = some new ∧ new.get col = value) := by
  obtain ⟨r0, hr0, hr0id⟩ := hid
  have hsome : (s.data.find? (fun r => r.id == rowId)).isSome := by
    rw [List.find?_isSome]
    exact ⟨r0, hr0, by simp [hr0id]⟩
  obtain ⟨r, hr⟩ := Option.isSome_iff_exists.mp hsome
  refine ⟨_, handleCellEdit_ok s rowId col value r hr, rfl, by simp, ?_, ?_, ?_⟩
  · exact editMap_ids s.data rowId col value
  · simp only
    rw [List.forall₂_map_right_iff]
    apply List.forall₂_same.mpr
    intro x _
    refine ⟨fun hx => ?_, fun hx => ?_⟩
    · rw [if_pos hx]
      exact ⟨Row.get_set_same x col value, fun c hc => Row.get_set_other x col c value hc⟩
    · rw [if_neg hx]
  · have hrid : r.id = rowId := by
      have := List.find?_some hr
      simpa using this
    refine ⟨r.set col value, ?_, Row.get_set_same r col value⟩
    simp only [find_editMap, hr, Option.map_some', hrid, if_true]

/-- C8 (witness): row 0 of the sample state, title set to `A2`. -/
theorem handleCellEdit_writes_one_cell_witness :
    (∃ r ∈ sampleState.data, r.id = 0) ∧
    ∃ t, handleCellEdit sampleState 0 Column.Title "A2" = Except.ok t ∧
      t.originalData = sampleState.originalData ∧
      t.data.length = sampleState.data.length ∧
      t.data.map Row.id = sampleState.data.map Row.id ∧
      List.Forall₂
        (fun old new =>
          (old.id = 0 →
            new.get Column.Title = "A2" ∧
              ∀ c, c ≠ Column.Title → new.get c = old.get c) ∧
          (old.id ≠ 0 → new = old))
        sampleState.data t.data ∧
      (∃ new, t.data.find? (fun r => r.id == 0) = some new ∧ new.get Column.Title = "A2") :=
  have hid : ∃ r ∈ sampleState.data, r.id = 0 := ⟨_, List.mem_cons_self _ _, rfl⟩
  ⟨hid, handleCellEdit_writes_one_cell sampleState 0 Column.Title "A2" hid⟩

/-- C10: for every state (so for every state reached by a load and cell edits),
`resetAllEdits` yields a state whose working dataset equals the original
dataset and whose edit map is empty, with the original dataset, `query`,
`genreFilter`, `sortBy`, `page` and `pageSize` unchanged; a second
`resetAllEdits` yields the same state as the first. -/
theorem resetAllEdits_restores_and_idempotent (s : State) :
    (resetAllEdits s).data = s.originalData ∧
    (resetAllEdits s).editedMap = [] ∧
    (resetAllEdits s).originalData = s.originalData ∧
    (resetAllEdits s).query = s.query ∧
    (resetAllEdits s).genreFilter = s.genreFilter ∧
    (resetAllEdits s).sortBy = s.sortBy ∧
    (resetAllEdits s).page = s.page ∧
    (resetAllEdits s).pageSize = s.pageSize ∧
    resetAllEdits (resetAllEdits s) = resetAllEdits s := by
  have hcopy : ∀ l : List Row, l.map (fun r => { r with }) = l := fun l => List.map_id l
  refine ⟨hcopy _, rfl, rfl, rfl, rfl, rfl, rfl, rfl, ?_⟩
  simp only [resetAllEdits, hcopy]

/-! ### Filters -/

/-- Without a sort column the pipeline is the text filter followed by the
category filter, each written as the predicate of the specification. -/
theorem filteredSortedData_no_sort (h : Host) (data : List Row) (query genreFilter : String)
    (d : Option Dir) :
    filteredSortedData h data query genreFilter { col := none, dir := d } =
      (data.filter (textPredicate h query)).filter (categoryPredicate genreFilter) := by
  have htext : (if query ≠ "" then data.filter (matchesQuery h (h.toLowerCase query))
      else data) = data.filter (textPredicate h query) := by
    by_cases hq : query = ""
    · rw [if_neg (not_not.mpr hq)]
      symm
      apply List.filter_eq_self.mpr
      intro r _
      simp [textPredicate, hq]
    · rw [if_pos hq]
      congr 1
      funext r
      simp only [textPredicate, matchesQuery, includes, columns, Row.get, hq, decide_False,
        Bool.false_or, List.any_cons, List.any_nil, Bool.or_false]
      cases decide ((h.toLowerCase query).data <:+: (h.toLowerCase r.Title).data) <;>
      cases decide ((h.toLowerCase query).data <:+: (h.toLowerCase r.Author).data) <;>
      cases decide ((h.toLowerCase query).data <:+: (h.toLowerCase r.Genre).data) <;>
      cases decide ((h.toLowerCase query).data <:+: (h.toLowerCase r.ISBN).data) <;>
      cases decide ((h.toLowerCase query).data <:+: (h.toLowerCase r.PublishedYear).data) <;>
      rfl
  have hcat : ∀ l : List Row, (if genreFilter ≠ "" then l.filter (fun r => r.Genre == genreFilter)
      else l) = l.filter (categoryPredicate genreFilter) := by
    intro l
    by_cases hg : genreFilter = ""
    · rw [if_neg (not_not.mpr hg)]
      symm
      apply List.filter_eq_self.mpr
      intro r _
      simp [categoryPredicate, hg]
    · rw [if_pos hg]
      congr 1
      funext r
      simp only [categoryPredicate, hg, decide_False, Bool.false_or]
      by_cases hr : r.Genre = genreFilter <;> simp [hr]
  simp only [filteredSortedData, htext, hcat]

/-- C6: for every working dataset, query and genre filter, with no sort column
the visible row sequence is the working dataset filtered once, in dataset
order, by the conjunction of the text predicate and the category predicate, and
is also the category filter followed by the text filter. With a fiction row `a`
and a fantasy row `b`, an empty query and the genre filter `Fantasy`, the
visible rows are exactly `b`. -/
theorem filter_composition (h : Host) (data : List Row) (query genreFilter : String)
    (d : Option Dir) :
    filteredSortedData h data query genreFilter { col := none, dir := d } =
      data.filter (fun r => textPredicate h query r && categoryPredicate genreFilter r) ∧
    filteredSortedData h data query genreFilter { col := none, dir := d } =
      (data.filter (categoryPredicate genreFilter)).filter (textPredicate h query) ∧
    (∀ a b : Row, a.Title = "A" → a.Genre = "Fiction" → b.Title = "B" → b.Genre = "Fantasy" →
      filteredSortedData h [a, b] "" "Fantasy" { col := none, dir := d } = [b]) := by
  refine ⟨?_, ?_, ?_⟩
  · rw [filteredSortedData_no_sort, List.filter_filter]
    congr 1
    funext r
    exact Bool.and_comm _ _
  · rw [filteredSortedData_no_sort, List.filter_filter, List.filter_filter]
    congr 1
    funext r
    exact Bool.and_comm _ _
  · intro a b _ ha _ hb
    rw [filteredSortedData_no_sort]
    simp [textPredicate, categoryPredicate, List.filter, ha, hb]

/-! ### Sort toggle -/

/-- C9: `toggleSort(c)` on a sort state whose column is not `c` (no sort
included) yields `(c, asc)`, on `(c, asc)` yields `(c, desc)` and on `(c, desc)`
yields no sort; three toggles of `c` from no sort return to no sort, under which
the visible rows are the filtered rows, a subsequence of the working dataset in
its order. -/
theorem toggleSort_cycle (h : Host) (c : Column) (data : List Row)
    (query genreFilter : String) :
    (∀ prev : SortBy, prev.col ≠ some c →
      toggleSort c prev = { col := some c, dir := some Dir.asc }) ∧
    toggleSort c { col := some c, dir := some Dir.asc } =
      { col := some c, dir := some Dir.desc } ∧
    toggleSort c { col := some c, dir := some Dir.desc } = { col := none, dir := none } ∧
    toggleSort c (toggleSort c (toggleSort c { col := none, dir := none })) =
      { col := none, dir := none } ∧
    filteredSortedData h data query genreFilter
        (toggleSort c (toggleSort c (toggleSort c { col := none, dir := none }))) =
      (data.filter (textPredicate h query)).filter (categoryPredicate genreFilter) ∧
    List.Sublist
      (filteredSortedData h data query genreFilter
        (toggleSort c (toggleSort c (toggleSort c { col := none, dir := none }))))
      data := by
  have h3 : toggleSort c (toggleSort c (toggleSort c { col := none, dir := none })) =
      { col := none, dir := none } := by
    simp [toggleSort]
  have hfilter := filteredSortedData_no_sort h data query genreFilter none
  refine ⟨fun prev hp => by simp [toggleSort, hp], by simp [toggleSort], by simp [toggleSort],
    h3, ?_, ?_⟩
  · rw [h3, hfilter]
  · rw [h3, hfilter]
    exact (List.filter_sublist _).trans (List.filter_sublist _)

/-! ### Page reset -/

/-- C7 (counterexample): eleven rows were shown ten to a page (two pages), the
page entry box was emptied (page 0) and a query matching no row was typed. The
page count is now 1, a new value, and page 0 is outside `[1, 1]`; the effect
leaves the page at 0 instead of resetting it to 1. -/
theorem pageCountEffect_keeps_page_zero :
    statePageCount asciiHost emptiedEntryState = 1 ∧
    statePageCount asciiHost emptiedEntryState ≠ 2 ∧
    emptiedEntryState.page = 0 ∧
    ¬ (1 ≤ emptiedEntryState.page ∧
        emptiedEntryState.page ≤ (statePageCount asciiHost emptiedEntryState : Int)) ∧
    (pageCountEffect asciiHost 2 emptiedEntryState).page ≠ 1 := by
  decide

/-- C7 (amended): when the page count of the state differs from the one of the
previous render, the effect sets the page to 1 if the page is greater than the
new page count and leaves it unchanged otherwise, and changes nothing else; if
the page was at least 1 the resulting page is in `[1, pageCount]`. -/
theorem pageCountEffect_resets_above (h : Host) (prevPageCount : Nat) (s : State)
    (hchg : statePageCount h s ≠ prevPageCount) :
    ((statePageCount h s : Int) < s.page → (pageCountEffect h prevPageCount s).page = 1) ∧
    (s.page ≤ (statePageCount h s : Int) → (pageCountEffect h prevPageCount s).page = s.page) ∧
    pageCountEffect h prevPageCount s =
      { s with page := (pageCountEffect h prevPageCount s).page } ∧
    (1 ≤ s.page →
      1 ≤ (pageCountEffect h prevPageCount s).page ∧
      (pageCountEffect h prevPageCount s).page ≤
        (statePageCount h (pageCountEffect h prevPageCount s) : Int)) := by
  have hpc : (1 : Int) ≤ (statePageCount h s : Int) := by
    have : 1 ≤ statePageCount h s := by
      unfold statePageCount pageCount
      exact le_max_left _ _
    exact_mod_cast this
  by_cases hgt : s.page > (statePageCount h s : Int)
  · have he : pageCountEffect h prevPageCount s = { s with page := 1 } := by
      simp only [pageCountEffect, if_neg hchg, if_pos hgt]
    have hsame : statePageCount h { s with page := 1 } = statePageCount h s := rfl
    rw [he, hsame]
    exact ⟨fun _ => rfl, fun hle => absurd hle (by omega), rfl, fun _ => ⟨le_refl _, hpc⟩⟩
  · have he : pageCountEffect h prevPageCount s = s := by
      simp only [pageCountEffect, if_neg hchg, if_neg hgt]
    rw [he]
    exact ⟨fun hlt => absurd hlt (by omega), fun _ => rfl, rfl, fun h1 => ⟨h1, by omega⟩⟩

/-- C7 (witness): eleven rows shown ten to a page while on page 2, after a query
matching no row was typed: the page count went from 2 to 1 and the page is
reset to 1. -/
theorem pageCountEffect_resets_above_witness :
    statePageCount asciiHost { emptiedEntryState with page := 2 } ≠ 2 ∧
    (pageCountEffect asciiHost 2 { emptiedEntryState with page := 2 }).page = 1 :=
  have hchg : statePageCount asciiHost { emptiedEntryState with page := 2 } ≠ 2 := by decide
  ⟨hchg, (pageCountEffect_resets_above asciiHost 2 { emptiedEntryState with page := 2 } hchg).1
    (by decide)⟩

/-! ### Pagination -/

/-- The slice of `jsSlice` for bounds that are not negative. -/
theorem jsSlice_of_nonneg {α : Type} (xs : List α) (a n : Nat) :
    jsSlice xs (a : Int) ((a : Int) + (n : Int)) = (xs.drop a).take n := by
  have h1 : ¬ ((a : Int) < 0) := by omega
  have h2 : ¬ ((a : Int) + (n : Int) < 0) := by omega
  simp only [jsSlice, if_neg h1, if_neg h2]
  by_cases hle : a ≤ xs.length
  · have hk : (min (a : Int) (xs.length : Int)).toNat = a := by
      rw [min_eq_left (by exact_mod_cast hle)]
      exact Int.toNat_natCast a
    rw [hk]
    by_cases hle2 : a + n ≤ xs.length
    · have hf : (min ((a : Int) + (n : Int)) (xs.length : Int) -
          min (a : Int) (xs.length : Int)).toNat = n := by
        rw [min_eq_left (by exact_mod_cast hle2), min_eq_left (by exact_mod_cast hle)]
        omega
      rw [hf]
    · have hf : (min ((a : Int) + (n : Int)) (xs.length : Int) -
          min (a : Int) (xs.length : Int)).toNat = xs.length - a := by
        rw [min_eq_right (by omega), min_eq_left (by exact_mod_cast hle)]
        omega
      rw [hf, List.take_of_length_le (by simp), List.take_of_length_le (by simp; omega)]
  · have hk : (min (a : Int) (xs.length : Int)).toNat = xs.length := by
      rw [min_eq_right (by omega)]
      exact Int.toNat_natCast _
    rw [hk, List.drop_of_length_le (le_refl _), List.drop_of_length_le (by omega)]
    simp

/-- The rows of page `p + 1`. -/
theorem currentPageRows_succ {α : Type} (visible : List α) (p pageSize : Nat) :
    currentPageRows visible ((p : Int) + 1) pageSize =
      (visible.drop (p * pageSize)).take pageSize := by
  have hs : ((p : Int) + 1 - 1) * (pageSize : Int) = ((p * pageSize : Nat) : Int) := by
    push_cast
    ring
  simp only [currentPageRows, hs]
  exact jsSlice_of_nonneg visible (p * pageSize) pageSize

/-- The first `n` pages joined are the first `n * pageSize` rows. -/
theorem pages_join_take {α : Type} (visible : List α) (pageSize : Nat) (n : Nat) :
    (List.range n).flatMap (fun i => currentPageRows visible ((i : Int) + 1) pageSize) =
      visible.take (n * pageSize) := by
  induction n with
  | zero => simp
  | succ n ih =>
    rw [List.range_succ, List.flatMap_append, ih, Nat.succ_mul, List.take_add]
    simp [currentPageRows_succ]

/-- The page count times the page size covers the rows. -/
theorem length_le_pageCount_mul (length pageSize : Nat) (hp : 0 < pageSize) :
    length ≤ pageCount length pageSize * pageSize := by
  have h1 : (length + pageSize - 1) / pageSize ≤ pageCount length pageSize :=
    le_max_right _ _
  have h2 : length + pageSize - 1 < ((length + pageSize - 1) / pageSize + 1) * pageSize := by
    rw [Nat.mul_comm]
    exact Nat.lt_mul_div_succ _ hp
  have h3 : ((length + pageSize - 1) / pageSize + 1) * pageSize ≤
      (pageCount length pageSize + 1) * pageSize :=
    Nat.mul_le_mul_right _ (by omega)
  have h4 : (pageCount length pageSize + 1) * pageSize =
      pageCount length pageSize * pageSize + pageSize := Nat.succ_mul _ _
  omega

/-- The rounded-up quotient of the definition is the ceiling of the rational
quotient. -/
theorem ceil_div_eq (length pageSize : Nat) (hp : 0 < pageSize) :
    ⌈(length : ℚ) / (pageSize : ℚ)⌉₊ = (length + pageSize - 1) / pageSize := by
  apply eq_of_forall_ge_iff
  intro n
  have hq : (0 : ℚ) < (pageSize : ℚ) := by exact_mod_cast hp
  rw [Nat.ceil_le, div_le_iff₀ hq, ← Nat.lt_succ_iff, Nat.div_lt_iff_lt_mul hp, Nat.succ_mul]
  have hcast : ((length : ℚ) ≤ (n : ℚ) * (pageSize : ℚ)) ↔ length ≤ n * pageSize := by
    rw [← Nat.cast_mul, Nat.cast_le]
  rw [hcast]
  omega

/-- C4: for every visible row sequence and every positive page size, the page
count is `max(1, ceil(length / pageSize))`; the rows of page `p ≥ 1` are the
elements at the indices from `(p-1)*pageSize` up to `(p-1)*pageSize + pageSize`,
cut at the end of the sequence; and the pages `1` to `pageCount` joined in
order are the visible row sequence. For 25 rows and page size 10 the page count
is 3 and page 3 holds the five rows after the first 20. -/
theorem pagination_partitions {α : Type} (visible : List α) (pageSize : Nat)
    (hp : 0 < pageSize) :
    pageCount visible.length pageSize =
      max 1 ⌈(visible.length : ℚ) / (pageSize : ℚ)⌉₊ ∧
    (∀ p : Nat, 1 ≤ p →
      currentPageRows visible (p : Int) pageSize =
        (visible.drop ((p - 1) * pageSize)).take pageSize ∧
      ∀ i : Nat, (currentPageRows visible (p : Int) pageSize)[i]? =
        if i < pageSize then visible[(p - 1) * pageSize + i]? else none) ∧
    (List.range (pageCount visible.length pageSize)).flatMap
      (fun i => currentPageRows visible ((i : Int) + 1) pageSize) = visible ∧
    (∀ l : List α, l.length = 25 →
      pageCount l.length 10 = 3 ∧ currentPageRows l 3 10 = l.drop 20 ∧
      (currentPageRows l 3 10).length = 5) := by
  refine ⟨?_, ?_, ?_, ?_⟩
  · rw [ceil_div_eq _ _ hp]
    rfl
  · intro p hp1
    obtain ⟨k, rfl⟩ : ∃ k, p = k + 1 := ⟨p - 1, by omega⟩
    have hrows := currentPageRows_succ visible k pageSize
    have hcast : ((k + 1 : Nat) : Int) = (k : Int) + 1 := by push_cast; ring
    rw [hcast, hrows, Nat.add_sub_cancel]
    refine ⟨rfl, fun i => ?_⟩
    by_cases hi : i < pageSize
    · rw [if_pos hi, List.getElem?_take_of_lt hi, List.getElem?_drop]
    · rw [if_neg hi, List.getElem?_eq_none]
      exact le_trans (List.length_take_le _ _) (by omega)
  · rw [pages_join_take]
    exact List.take_of_length_le (length_le_pageCount_mul _ _ hp)
  · intro l hl
    have h3 : currentPageRows l 3 10 = (l.drop 20).take 10 :=
      currentPageRows_succ l 2 10
    have hlen : (l.drop 20).length = 5 := by rw [List.length_drop, hl]
    rw [h3, hl, List.take_of_length_le (by omega), hlen]
    exact ⟨by decide, rfl, rfl⟩

/-- C4 (witness): 25 rows, page size 10. -/
theorem pagination_partitions_witness :
    0 < 10 ∧
    (List.range (pageCount (List.range 25).length 10)).flatMap
      (fun i => currentPageRows (List.range 25) ((i : Int) + 1) 10) = List.range 25 ∧
    pageCount (List.range 25).length 10 = 3 ∧
    currentPageRows (List.range 25) 3 10 = [20, 21, 22, 23, 24] :=
  ⟨by decide, (pagination_partitions (List.range 25) 10 (by decide)).2.2.1, by decide,
    by decide⟩

/-! ### Edit map invariant -/

theorem mem_mapSet (m : EditedMap) (k : Nat) (v : List Column) (e : Nat × List Column) :
    e ∈ mapSet m k v ↔ e = (k, v) ∨ (e ∈ m ∧ e.1 ≠ k) := by
  unfold mapSet
  by_cases hk : mapHas m k = true
  · rw [if_pos hk, List.mem_map]
    constructor
    · rintro ⟨x, hx, rfl⟩
      by_cases hxk : x.1 = k
      · left
        simp [hxk]
      · right
        simp [hxk, hx]
    · rintro (rfl | ⟨he, hek⟩)
      · unfold mapHas at hk
        rw [List.any_eq_true] at hk
        obtain ⟨x, hx, hxk⟩ := hk
        exact ⟨x, hx, by simp [beq_iff_eq.mp hxk]⟩
      · exact ⟨e, he, by simp [hek]⟩
  · rw [if_neg hk, List.mem_append, List.mem_singleton]
    constructor
    · rintro (he | rfl)
      · right
        refine ⟨he, fun hek => hk ?_⟩
        unfold mapHas
        rw [List.any_eq_true]
        exact ⟨e, he, by simp [hek]⟩
      · left
        rfl
    · rintro (rfl | ⟨he, _⟩)
      · right
        rfl
      · left
        exact he

theorem mem_mapDelete (m : EditedMap) (k : Nat) (e : Nat × List Column) :
    e ∈ mapDelete m k ↔ e ∈ m ∧ e.1 ≠ k := by
  simp [mapDelete]

theorem mem_mapKeys (m : EditedMap) (k : Nat) :
    k ∈ mapKeys m ↔ ∃ v, (k, v) ∈ m := by
  unfold mapKeys
  rw [List.mem_map]
  constructor
  · rintro ⟨⟨a, v⟩, he, rfl⟩
    exact ⟨v, he⟩
  · rintro ⟨v, hv⟩
    exact ⟨(k, v), hv, rfl⟩

theorem mem_columns (c : Column) : c ∈ columns := by
  cases c <;> simp [columns]

theorem changedColumns_ne_nil_iff (r o : Row) :
    changedColumns r (some o) ≠ [] ↔ ∃ c, r.get c ≠ o.get c := by
  unfold changedColumns
  rw [Ne, List.filter_eq_nil_iff]
  constructor
  · intro hne
    by_contra hall
    apply hne
    intro c _
    have : r.get c = o.get c := by
      by_contra hc
      exact hall ⟨c, hc⟩
    simp [this]
  · rintro ⟨c, hc⟩ hall
    have := hall c (mem_columns c)
    simp at this
    exact hc this

theorem find_id_some_iff (l : List Row) (k : Nat) :
    (∃ r, l.find? (fun x => x.id == k) = some r) ↔ k ∈ l.map Row.id := by
  rw [← Option.isSome_iff_exists, List.find?_isSome, List.mem_map]
  constructor
  · rintro ⟨x, hx, hxk⟩
    exact ⟨x, hx, beq_iff_eq.mp hxk⟩
  · rintro ⟨x, hx, hxk⟩
    exact ⟨x, hx, beq_iff_eq.mpr hxk⟩

theorem find_id_eq (l : List Row) (k : Nat) (r : Row)
    (h : l.find? (fun x => x.id == k) = some r) : r.id = k := by
  have := List.find?_some h
  simpa using this

theorem editInvariant_of_same (s : State) (hd : s.data = s.originalData)
    (hm : s.editedMap = []) : EditInvariant s := by
  refine ⟨by rw [hd], ?_, ?_⟩
  · intro e he
    rw [hm] at he
    exact absurd he (List.not_mem_nil _)
  · intro k r o hr ho hne
    rw [hd, ho] at hr
    have hro : o = r := Option.some.inj hr
    rw [← hro] at hne
    exact absurd ((changedColumns_ne_nil_iff o o).mp hne) (by simp)

theorem editInvariant_uploadComplete (s : State) (results : List ParsedRow) :
    EditInvariant (uploadComplete s results) :=
  editInvariant_of_same _ rfl rfl

theorem editInvariant_generateComplete (s : State) (books : List GeneratedBook) :
    EditInvariant (generateComplete s books) :=
  editInvariant_of_same _ rfl rfl

theorem editInvariant_resetAllEdits (s : State) : EditInvariant (resetAllEdits s) :=
  editInvariant_of_same _ (List.map_id _) rfl

theorem find_editMap_other (data : List Row) (rowId : Nat) (col : Column) (value : String)
    (k : Nat) (hk : k ≠ rowId) :
    (data.map (fun r => if r.id = rowId then r.set col value else r)).find?
        (fun r => r.id == k) = data.find? (fun r => r.id == k) := by
  rw [find_editMap]
  cases hf : data.find? (fun r => r.id == k) with
  | none => rfl
  | some x =>
    have hx : x.id = k := find_id_eq data k x hf
    have hne : ¬ x.id = rowId := by rw [hx]; exact hk
    simp [hne]

theorem find_editMap_same (data : List Row) (rowId : Nat) (col : Column) (value : String)
    (r : Row) (hr : data.find? (fun x => x.id == rowId) = some r) :
    (data.map (fun r => if r.id = rowId then r.set col value else r)).find?
        (fun r => r.id == rowId) = some (r.set col value) := by
  rw [find_editMap, hr]
  simp [find_id_eq data rowId r hr]

/-- A cell edit that completes keeps the invariant. -/
theorem editInvariant_handleCellEdit (s t : State) (rowId : Nat) (col : Column)
    (value : String) (hinv : EditInvariant s)
    (h : handleCellEdit s rowId col value = Except.ok t) : EditInvariant t := by
  cases hfind : s.data.find? (fun x => x.id == rowId) with
  | none =>
    have hthrow := handleCellEdit_throws_of_unknown s rowId col value (by
      intro r hr hid
      have := List.find?_eq_none.mp hfind r hr
      simp [hid] at this)
    rw [hthrow] at h
    cases h
  | some r =>
    obtain ⟨hids, hentries, hkeys⟩ := hinv
    obtain ⟨o, ho⟩ : ∃ o, s.originalData.find? (fun x => x.id == rowId) = some o := by
      rw [find_id_some_iff, ← hids, ← find_id_some_iff]
      exact ⟨r, hfind⟩
    rw [handleCellEdit_ok s rowId col value r hfind, ho] at h
    have ht : t = _ := (Except.ok.inj h).symm
    subst ht
    have hsame := find_editMap_same s.data rowId col value r hfind
    have hother := fun k hk => find_editMap_other s.data rowId col value k hk
    refine ⟨?_, ?_, ?_⟩
    · exact (editMap_ids s.data rowId col value).trans hids
    · intro e he
      simp only at he ⊢
      by_cases hch : (changedColumns (r.set col value) (some o)).length > 0
      · rw [if_pos hch, mem_mapSet] at he
        rcases he with rfl | ⟨he, hek⟩
        · exact ⟨r.set col value, o, hsame, ho, rfl, List.ne_nil_of_length_pos hch⟩
        · obtain ⟨r1, o1, hr1, ho1, hv, hne⟩ := hentries e he
          exact ⟨r1, o1, (hother e.1 hek).trans hr1, ho1, hv, hne⟩
      · rw [if_neg hch, mem_mapDelete] at he
        obtain ⟨he, hek⟩ := he
        obtain ⟨r1, o1, hr1, ho1, hv, hne⟩ := hentries e he
        exact ⟨r1, o1, (hother e.1 hek).trans hr1, ho1, hv, hne⟩
    · intro k r1 o1 hr1 ho1 hne
      simp only at hr1 ho1 ⊢
      rw [mem_mapKeys]
      by_cases hk : k = rowId
      · subst hk
        rw [hsame] at hr1
        rw [ho] at ho1
        have e1 : r.set col value = r1 := Option.some.inj hr1
        have e2 : o = o1 := Option.some.inj ho1
        rw [← e1, ← e2] at hne
        have hch : (changedColumns (r.set col value) (some o)).length > 0 :=
          List.length_pos.mpr hne
        rw [if_pos hch]
        exact ⟨_, (mem_mapSet _ _ _ _).mpr (Or.inl rfl)⟩
      · rw [hother k hk] at hr1
        have hmem := hkeys k r1 o1 hr1 ho1 hne
        rw [mem_mapKeys] at hmem
        obtain ⟨v, hv⟩ := hmem
        by_cases hch : (changedColumns (r.set col value) (some o)).length > 0
        · rw [if_pos hch]
          exact ⟨v, (mem_mapSet _ _ _ _).mpr (Or.inr ⟨hv, hk⟩)⟩
        · rw [if_neg hch]
          exact ⟨v, (mem_mapDelete _ _ _).mpr ⟨hv, hk⟩⟩

/-- Every reachable state satisfies the invariant. -/
theorem editInvariant_of_reachable (s : State) (hs : Reachable s) : EditInvariant s := by
  induction hs with
  | upload s results => exact editInvariant_uploadComplete s results
  | generate s books => exact editInvariant_generateComplete s books
  | edit rowId col value _ hstep ih => exact editInvariant_handleCellEdit _ _ rowId col value ih hstep
  | reset _ _ => exact editInvariant_resetAllEdits _

/-- Under the invariant, the keys of the edit map are the identifiers whose
working row differs from its original row in some field. -/
theorem mem_keys_iff_of_invariant (s : State) (hinv : EditInvariant s) (k : Nat) :
    k ∈ mapKeys s.editedMap ↔
      ∃ r o, s.data.find? (fun x => x.id == k) = some r ∧
        s.originalData.find? (fun x => x.id == k) = some o ∧ ∃ c, r.get c ≠ o.get c := by
  obtain ⟨_, hentries, hkeys⟩ := hinv
  constructor
  · intro hk
    rw [mem_mapKeys] at hk
    obtain ⟨v, hv⟩ := hk
    obtain ⟨r, o, hr, ho, hval, hne⟩ := hentries (k, v) hv
    refine ⟨r, o, hr, ho, (changedColumns_ne_nil_iff r o).mp ?_⟩
    rw [← hval]
    exact hne
  · rintro ⟨r, o, hr, ho, hc⟩
    exact hkeys k r o hr ho ((changedColumns_ne_nil_iff r o).mpr hc)

/-- The datasets after a cell edit that completes. -/
theorem handleCellEdit_data (s t : State) (rowId : Nat) (col : Column) (value : String)
    (h : handleCellEdit s rowId col value = Except.ok t) :
    ∃ r, s.data.find? (fun x => x.id == rowId) = some r ∧
      t.data.find? (fun x => x.id == rowId) = some (r.set col value) ∧
      t.originalData = s.originalData := by
  cases hfind : s.data.find? (fun x => x.id == rowId) with
  | none =>
    have hthrow := handleCellEdit_throws_of_unknown s rowId col value (by
      intro r hr hid
      have := List.find?_eq_none.mp hfind r hr
      simp [hid] at this)
    rw [hthrow] at h
    cases h
  | some r =>
    rw [handleCellEdit_ok s rowId col value r hfind] at h
    have ht : t = _ := (Except.ok.inj h).symm
    subst ht
    exact ⟨r, rfl, find_editMap_same s.data rowId col value r hfind, rfl⟩

/-- C1: in every state reached from a load by cell edits and resets, an
identifier is a key of the edit map if and only if the working row with that
identifier differs in at least one of the five fields from the original row with
that identifier; every entry holds a non-empty change-set, which lists exactly
the differing columns; and editing a field of a row that is not in the map to a
value and then back to its original value leaves its identifier out of the map
(after the first edit it is in the map when the value was new). -/
theorem editMap_invariant (s : State) (hs : Reachable s) :
    (∀ id : Nat, id ∈ mapKeys s.editedMap ↔
      ∃ r o, s.data.find? (fun x => x.id == id) = some r ∧
        s.originalData.find? (fun x => x.id == id) = some o ∧ ∃ c, r.get c ≠ o.get c) ∧
    (∀ e ∈ s.editedMap, e.2 ≠ [] ∧
      ∃ r o, s.data.find? (fun x => x.id == e.1) = some r ∧
        s.originalData.find? (fun x => x.id == e.1) = some o ∧
        ∀ c, c ∈ e.2 ↔ r.get c ≠ o.get c) ∧
    (∀ (rowId : Nat) (col : Column) (value : String) (o : Row) (t u : State),
      rowId ∉ mapKeys s.editedMap →
      s.originalData.find? (fun x => x.id == rowId) = some o →
      handleCellEdit s rowId col value = Except.ok t →
      handleCellEdit t rowId col (o.get col) = Except.ok u →
      (value ≠ o.get col → rowId ∈ mapKeys t.editedMap) ∧
      rowId ∉ mapKeys u.editedMap) := by
  have hinv := editInvariant_of_reachable s hs
  refine ⟨mem_keys_iff_of_invariant s hinv, ?_, ?_⟩
  · intro e he
    obtain ⟨r, o, hr, ho, hval, hne⟩ := hinv.2.1 e he
    refine ⟨hne, r, o, hr, ho, fun c => ?_⟩
    rw [hval]
    unfold changedColumns
    rw [List.mem_filter]
    simp [mem_columns]
  · intro rowId col value o t u hnot ho hedit hback
    have ht : Reachable t := Reachable.edit rowId col value hs hedit
    have hu : Reachable u := Reachable.edit rowId col (o.get col) ht hback
    obtain ⟨r, hr, htr, hto⟩ := handleCellEdit_data s t rowId col value hedit
    obtain ⟨r1, hr1, hur, huo⟩ := handleCellEdit_data t u rowId col (o.get col) hback
    have hr1eq : r1 = r.set col value := by
      rw [htr] at hr1
      exact (Option.some.inj hr1).symm
    subst hr1eq
    have hsame : ∀ c, r.get c = o.get c := by
      intro c
      by_contra hc
      exact hnot ((mem_keys_iff_of_invariant s hinv rowId).mpr ⟨r, o, hr, ho, c, hc⟩)
    constructor
    · intro hnew
      rw [mem_keys_iff_of_invariant t (editInvariant_of_reachable t ht)]
      refine ⟨r.set col value, o, htr, by rw [hto]; exact ho, col, ?_⟩
      rw [Row.get_set_same]
      exact hnew
    · rw [mem_keys_iff_of_invariant u (editInvariant_of_reachable u hu)]
      rintro ⟨r2, o2, hr2, ho2, c, hc⟩
      rw [hur] at hr2
      rw [huo, hto, ho] at ho2
      have e1 := Option.some.inj hr2
      have e2 := Option.some.inj ho2
      rw [← e1, ← e2] at hc
      apply hc
      by_cases hcc : c = col
      · rw [hcc, Row.get_set_same]
      · rw [Row.get_set_other _ _ _ _ hcc, Row.get_set_other _ _ _ _ hcc]
        exact hsame c

/-- C1 (witness): the sample state after the title of row 0 was edited to `A2`
is reachable, and there row 0 is a key of the edit map exactly because its
title differs from the original; editing the title of row 0 from `A` to `A2`
and back to `A` leaves row 0 out of the edit map. -/
theorem editMap_invariant_witness :
    Reachable sampleEdited ∧
    (0 ∈ mapKeys sampleEdited.editedMap ↔
      ∃ r o, sampleEdited.data.find? (fun x => x.id == 0) = some r ∧
        sampleEdited.originalData.find? (fun x => x.id == 0) = some o ∧
        ∃ c, r.get c ≠ o.get c) ∧
    handleCellEdit sampleState 0 Column.Title "A2" = Except.ok sampleEdited ∧
    handleCellEdit sampleEdited 0 Column.Title "A" = Except.ok sampleState ∧
    0 ∈ mapKeys sampleEdited.editedMap ∧
    0 ∉ mapKeys sampleState.editedMap :=
  have hload : Reachable sampleState := Reachable.upload initialState sampleParsed
  have hreach : Reachable sampleEdited := Reachable.edit 0 Column.Title "A2" hload rfl
  have hback := (editMap_invariant sampleState hload).2.2 0 Column.Title "A2"
    { id := 0, Title := "A", Author := "Ann", Genre := "Fiction", PublishedYear := "1999",
      ISBN := "9780000000001" }
    sampleEdited sampleState (by decide) rfl rfl rfl
  ⟨hreach, (editMap_invariant sampleEdited hreach).1 0, rfl, rfl, hback.1 (by decide), hback.2⟩

/-! ### Sorting -/

theorem arraySort_cons {α : Type} (cmp : α → α → Int) (x : α) (l : List α) :
    arraySort cmp (x :: l) = sortInsert cmp x (arraySort cmp l) := rfl

theorem sortInsert_perm {α : Type} (cmp : α → α → Int) (x : α) (l : List α) :
    (sortInsert cmp x l).Perm (x :: l) := by
  induction l with
  | nil => exact List.Perm.refl _
  | cons y ys ih =>
    unfold sortInsert
    by_cases hxy : cmp x y ≤ 0
    · rw [if_pos hxy]
    · rw [if_neg hxy]
      exact (ih.cons y).trans (List.Perm.swap x y ys)

theorem arraySort_perm {α : Type} (cmp : α → α → Int) (l : List α) :
    (arraySort cmp l).Perm l := by
  induction l with
  | nil => exact List.Perm.refl _
  | cons x t ih =>
    rw [arraySort_cons]
    exact (sortInsert_perm cmp x _).trans (ih.cons x)

/-- Insertion in a sorted list of elements on which the comparator is
consistent keeps it sorted. -/
theorem sortInsert_pairwise {α : Type} (cmp : α → α → Int) (L : List α)
    (hc : ConsistentOn cmp L) (x : α) (hx : x ∈ L) (m : List α) (hm : ∀ z ∈ m, z ∈ L)
    (hs : m.Pairwise (fun a b => cmp a b ≤ 0)) :
    (sortInsert cmp x m).Pairwise (fun a b => cmp a b ≤ 0) := by
  induction m with
  | nil => exact List.pairwise_singleton _ _
  | cons y ys ih =>
    have hy : y ∈ L := hm y (List.mem_cons_self _ _)
    have hys : ∀ z ∈ ys, z ∈ L := fun z hz => hm z (List.mem_cons_of_mem _ hz)
    rw [List.pairwise_cons] at hs
    unfold sortInsert
    by_cases hxy : cmp x y ≤ 0
    · rw [if_pos hxy, List.pairwise_cons]
      refine ⟨fun z hz => ?_, List.pairwise_cons.mpr hs⟩
      rcases List.mem_cons.mp hz with rfl | hz
      · exact hxy
      · exact hc.2 x hx y hy z (hys z hz) hxy (hs.1 z hz)
    · rw [if_neg hxy, List.pairwise_cons]
      refine ⟨fun z hz => ?_, ih hys hs.2⟩
      rcases List.mem_cons.mp ((sortInsert_perm cmp x ys).mem_iff.mp hz) with rfl | hz
      · have := (hc.1 z hx y hy).mp (by omega)
        omega
      · exact hs.1 z hz

/-- The sort orders the rows when the comparator is consistent on them. -/
theorem arraySort_pairwise {α : Type} (cmp : α → α → Int) (L : List α)
    (hc : ConsistentOn cmp L) (l : List α) (hl : ∀ z ∈ l, z ∈ L) :
    (arraySort cmp l).Pairwise (fun a b => cmp a b ≤ 0) := by
  induction l with
  | nil => exact List.Pairwise.nil
  | cons x t ih =>
    rw [arraySort_cons]
    have ht : ∀ z ∈ t, z ∈ L := fun z hz => hl z (List.mem_cons_of_mem _ hz)
    exact sortInsert_pairwise cmp L hc x (hl x (List.mem_cons_self _ _)) _
      (fun z hz => ht z ((arraySort_perm cmp t).mem_iff.mp hz)) (ih ht)

/-- Insertion does not move `x` behind an element that `p` selects together
with `x`, when the selected elements do not follow each other. -/
theorem sortInsert_filter {α : Type} (cmp : α → α → Int) (p : α → Bool) (x : α)
    (m : List α) (hp : ∀ y ∈ m, p x = true → p y = true → cmp x y ≤ 0) :
    (sortInsert cmp x m).filter p = (x :: m).filter p := by
  induction m with
  | nil => rfl
  | cons y ys ih =>
    have ih1 := ih (fun z hz => hp z (List.mem_cons_of_mem _ hz))
    unfold sortInsert
    by_cases hxy : cmp x y ≤ 0
    · rw [if_pos hxy]
    · rw [if_neg hxy]
      by_cases hpx : p x = true
      · have hpy : ¬ p y = true := fun hpy => hxy (hp y (List.mem_cons_self _ _) hpx hpy)
        rw [List.filter_cons_of_neg hpy, ih1, List.filter_cons_of_pos hpx,
          List.filter_cons_of_pos hpx, List.filter_cons_of_neg hpy]
      · rw [List.filter_cons_of_neg hpx, List.filter_cons, ih1, List.filter_cons_of_neg hpx,
          ← List.filter_cons]

/-- Stability: the rows selected by `p` keep their order when they do not
follow each other in the comparator. -/
theorem arraySort_filter {α : Type} (cmp : α → α → Int) (p : α → Bool) (l : List α)
    (hp : ∀ a ∈ l, ∀ b ∈ l, p a = true → p b = true → cmp a b ≤ 0) :
    (arraySort cmp l).filter p = l.filter p := by
  induction l with
  | nil => rfl
  | cons x t ih =>
    have iht := ih (fun a ha b hb =>
      hp a (List.mem_cons_of_mem _ ha) b (List.mem_cons_of_mem _ hb))
    rw [arraySort_cons, sortInsert_filter, List.filter_cons, List.filter_cons, iht]
    intro y hy
    exact hp x (List.mem_cons_self _ _) y
      (List.mem_cons_of_mem _ ((arraySort_perm cmp t).mem_iff.mp hy))

/-- The opposite comparator is consistent where the comparator is. -/
theorem consistentOn_neg {α : Type} (cmp : α → α → Int) (L : List α)
    (hc : ConsistentOn cmp L) : ConsistentOn (fun a b => - cmp a b) L := by
  refine ⟨fun a ha b hb => ?_, fun a ha b hb c hc3 hab hbc => ?_⟩
  · have h1 := hc.1 a ha b hb
    have h2 := hc.1 b hb a ha
    constructor <;> intro h0 <;> simp only at h0 ⊢ <;> omega
  · simp only at hab hbc ⊢
    have h1 := hc.1 a ha b hb
    have h2 := hc.1 b hb c hc3
    have h3 := hc.1 a ha c hc3
    have h4 := hc.1 b hb a ha
    have h5 := hc.1 c hc3 b hb
    have h6 := hc.1 c hc3 a ha
    have hcb : cmp c b ≤ 0 := by omega
    have hba : cmp b a ≤ 0 := by omega
    have := hc.2 c hc3 b hb a ha hcb hba
    omega

/-- Rows that tie with `x` tie with each other. -/
theorem tie_le {α : Type} (cmp : α → α → Int) (L : List α) (hc : ConsistentOn cmp L)
    (x : α) (hx : x ∈ L) (a : α) (ha : a ∈ L) (b : α) (hb : b ∈ L)
    (hxa : cmp x a = 0) (hxb : cmp x b = 0) : cmp a b ≤ 0 := by
  have h1 := hc.1 x hx a ha
  have h2 := hc.1 a ha x hx
  exact hc.2 a ha x hx b hb (by omega) (by omega)

theorem countP_lt_countP {α : Type} (p q : α → Bool) (l : List α)
    (hpq : ∀ x ∈ l, p x = true → q x = true) (x0 : α) (hx0 : x0 ∈ l)
    (hq : q x0 = true) (hp : ¬ p x0 = true) : l.countP p < l.countP q := by
  induction l with
  | nil => exact absurd hx0 (List.not_mem_nil _)
  | cons y ys ih =>
    have hmono : ys.countP p ≤ ys.countP q :=
      List.countP_mono_left (fun x hx => hpq x (List.mem_cons_of_mem _ hx))
    rcases List.mem_cons.mp hx0 with rfl | hx
    · rw [List.countP_cons_of_pos _ _ hq, List.countP_cons_of_neg _ _ hp]
      omega
    · have ih1 := ih (fun x hx1 => hpq x (List.mem_cons_of_mem _ hx1)) hx
      by_cases hpy : p y = true
      · rw [List.countP_cons_of_pos _ _ hpy,
          List.countP_cons_of_pos _ _ (hpq y (List.mem_cons_self _ _) hpy)]
        omega
      · rw [List.countP_cons_of_neg _ _ hpy]
        by_cases hqy : q y = true
        · rw [List.countP_cons_of_pos _ _ hqy]
          omega
        · rw [List.countP_cons_of_neg _ _ hqy]
          exact ih1

theorem lt_of_lt_of_le_cmp {α : Type} (cmp : α → α → Int) (L : List α)
    (hc : ConsistentOn cmp L) (y a b : α) (hy : y ∈ L) (ha : a ∈ L) (hb : b ∈ L)
    (hya : cmp y a < 0) (hab : cmp a b ≤ 0) : cmp y b < 0 := by
  by_contra hyb
  have h1 := hc.1 y hy b hb
  have h2 := hc.1 b hb y hy
  have hby : cmp b y ≤ 0 := by omega
  have hay := hc.2 a ha b hb y hy hab hby
  have h3 := hc.1 a ha y hy
  omega

theorem rankIn_le {α : Type} (cmp : α → α → Int) (L : List α) (hc : ConsistentOn cmp L)
    (a b : α) (ha : a ∈ L) (hb : b ∈ L) (hab : cmp a b ≤ 0) :
    rankIn cmp L a ≤ rankIn cmp L b := by
  unfold rankIn
  apply List.countP_mono_left
  intro y hy hya
  have hya1 : cmp y a < 0 := of_decide_eq_true hya
  exact decide_eq_true (lt_of_lt_of_le_cmp cmp L hc y a b hy ha hb hya1 hab)

theorem rankIn_lt {α : Type} (cmp : α → α → Int) (L : List α) (hc : ConsistentOn cmp L)
    (a b : α) (ha : a ∈ L) (hb : b ∈ L) (hab : cmp a b < 0) :
    rankIn cmp L a < rankIn cmp L b := by
  unfold rankIn
  apply countP_lt_countP _ _ L _ a ha
  · exact decide_eq_true hab
  · intro haa
    have haa1 : cmp a a < 0 := of_decide_eq_true haa
    have := hc.1 a ha a ha
    omega
  · intro y hy hya
    have hya1 : cmp y a < 0 := of_decide_eq_true hya
    exact decide_eq_true (lt_of_lt_of_le_cmp cmp L hc y a b hy ha hb hya1 (by omega))

theorem tie_of_rankIn_eq {α : Type} (cmp : α → α → Int) (L : List α)
    (hc : ConsistentOn cmp L) (a b : α) (ha : a ∈ L) (hb : b ∈ L)
    (hr : rankIn cmp L a = rankIn cmp L b) : cmp a b = 0 := by
  have h1 := hc.1 a ha b hb
  by_contra hne
  rcases lt_or_gt_of_ne hne with hlt | hgt
  · have := rankIn_lt cmp L hc a b ha hb hlt
    omega
  · have := rankIn_lt cmp L hc b a hb ha (h1.mp hgt)
    omega

theorem forall₂_of_map_eq {α β : Type} (f : α → β) (P : α → Prop) (R : α → α → Prop)
    (hR : ∀ a b, P a → P b → f a = f b → R a b) :
    ∀ l₁ l₂ : List α, l₁.map f = l₂.map f → (∀ a ∈ l₁, P a) → (∀ b ∈ l₂, P b) →
      List.Forall₂ R l₁ l₂
  | [], [], _, _, _ => List.Forall₂.nil
  | [], _ :: _, h, _, _ => by simp at h
  | _ :: _, [], h, _, _ => by simp at h
  | a :: l₁, b :: l₂, h, h₁, h₂ => by
    rw [List.map_cons, List.map_cons, List.cons.injEq] at h
    exact List.Forall₂.cons
      (hR a b (h₁ a (List.mem_cons_self _ _)) (h₂ b (List.mem_cons_self _ _)) h.1)
      (forall₂_of_map_eq f P R hR l₁ l₂ h.2
        (fun x hx => h₁ x (List.mem_cons_of_mem _ hx))
        (fun x hx => h₂ x (List.mem_cons_of_mem _ hx)))

/-- The sort by the opposite comparator is, position by position, the reverse
of the sort by the comparator up to ties. -/
theorem arraySort_neg_reverse {α : Type} (cmp : α → α → Int) (L : List α)
    (hc : ConsistentOn cmp L) :
    List.Forall₂ (fun a b => cmp a b = 0)
      (arraySort (fun a b => - cmp a b) L) (arraySort cmp L).reverse := by
  have hpA := arraySort_perm cmp L
  have hpD := arraySort_perm (fun a b => - cmp a b) L
  have hA := arraySort_pairwise cmp L hc L (fun _ hz => hz)
  have hD := arraySort_pairwise (fun a b => - cmp a b) L (consistentOn_neg cmp L hc) L
    (fun _ hz => hz)
  have hsA : ((arraySort cmp L).map (rankIn cmp L)).Sorted (· ≤ ·) := by
    apply List.pairwise_map.mpr
    exact hA.imp_of_mem (fun ha hb hab =>
      rankIn_le cmp L hc _ _ (hpA.mem_iff.mp ha) (hpA.mem_iff.mp hb) hab)
  have hsD : ((arraySort (fun a b => - cmp a b) L).map (rankIn cmp L)).reverse.Sorted
      (· ≤ ·) := by
    apply List.pairwise_reverse.mpr
    apply List.pairwise_map.mpr
    refine hD.imp_of_mem (fun {a b} ha hb hab => ?_)
    have ha1 := hpD.mem_iff.mp ha
    have hb1 := hpD.mem_iff.mp hb
    have h1 := hc.1 a ha1 b hb1
    have h2 := hc.1 b hb1 a ha1
    simp only at hab
    exact rankIn_le cmp L hc b a hb1 ha1 (by omega)
  have hperm : ((arraySort cmp L).map (rankIn cmp L)).Perm
      ((arraySort (fun a b => - cmp a b) L).map (rankIn cmp L)).reverse :=
    ((hpA.map _).trans (hpD.map _).symm).trans (List.reverse_perm _).symm
  have heq := List.eq_of_perm_of_sorted hperm hsA hsD
  have heq2 : (arraySort (fun a b => - cmp a b) L).map (rankIn cmp L) =
      ((arraySort cmp L).reverse).map (rankIn cmp L) := by
    rw [List.map_reverse, heq, List.reverse_reverse]
  exact forall₂_of_map_eq (rankIn cmp L) (fun a => a ∈ L) _
    (fun a b ha hb hr => tie_of_rankIn_eq cmp L hc a b ha hb hr) _ _ heq2
    (fun a ha => hpD.mem_iff.mp ha)
    (fun b hb => hpA.mem_iff.mp (List.mem_reverse.mp hb))

theorem lexCompare_antisymm : ∀ a b : List Nat, 0 < lexCompare a b ↔ lexCompare b a < 0
  | [], [] => by simp [lexCompare]
  | [], _ :: _ => by simp [lexCompare]
  | _ :: _, [] => by simp [lexCompare]
  | x :: xs, y :: ys => by
    have ih := lexCompare_antisymm xs ys
    simp only [lexCompare]
    split_ifs <;> omega

theorem lexCompare_trans : ∀ a b c : List Nat,
    lexCompare a b ≤ 0 → lexCompare b c ≤ 0 → lexCompare a c ≤ 0
  | [], [], [] => by simp [lexCompare]
  | [], [], _ :: _ => by simp [lexCompare]
  | [], _ :: _, [] => by simp [lexCompare]
  | [], _ :: _, _ :: _ => by simp [lexCompare]
  | _ :: _, [], _ => by simp [lexCompare]
  | _ :: _, _ :: _, [] => by simp [lexCompare]
  | x :: xs, y :: ys, z :: zs => by
    have ih := lexCompare_trans xs ys zs
    simp only [lexCompare]
    split_ifs <;> omega

/-- Code point collation is a consistent comparator. -/
theorem codePointCompare_consistent : ConsistentCollation codePointCompare :=
  ⟨fun _ _ => lexCompare_antisymm _ _, fun _ _ _ => lexCompare_trans _ _ _⟩

theorem compareRows_neg (h : Host) (col : Column) :
    compareRows h col (-1) = fun a b => - compareRows h col 1 a b := by
  funext a b
  unfold compareRows
  by_cases hcol : col = Column.PublishedYear ∨ col = Column.ISBN
  · simp only [if_pos hcol]
    cases h.toNumber (a.get col) <;> cases h.toNumber (b.get col) <;> simp
  · simp only [if_neg hcol]
    ring

/-- The comparator of the sort is consistent on rows whose keys are comparable:
under a consistent collation for a text column, and on numeric text for
`PublishedYear` and `ISBN`. -/
theorem consistentOn_compareRows (h : Host) (col : Column) (L : List Row)
    (hText : col ≠ Column.PublishedYear → col ≠ Column.ISBN →
      ConsistentCollation h.localeCompare)
    (hNum : col = Column.PublishedYear ∨ col = Column.ISBN →
      ∀ r ∈ L, (h.toNumber (r.get col)).isSome = true) :
    ConsistentOn (compareRows h col 1) L := by
  by_cases hcol : col = Column.PublishedYear ∨ col = Column.ISBN
  · have hn := hNum hcol
    have hval : ∀ r ∈ L, ∃ x, h.toNumber (r.get col) = some x := fun r hr =>
      Option.isSome_iff_exists.mp (hn r hr)
    refine ⟨fun a ha b hb => ?_, fun a ha b hb c hc hab hbc => ?_⟩
    · obtain ⟨x, hx⟩ := hval a ha
      obtain ⟨y, hy⟩ := hval b hb
      simp only [compareRows, if_pos hcol, hx, hy, mul_one]
      omega
    · obtain ⟨x, hx⟩ := hval a ha
      obtain ⟨y, hy⟩ := hval b hb
      obtain ⟨z, hz⟩ := hval c hc
      simp only [compareRows, if_pos hcol, hx, hy, hz, mul_one] at hab hbc ⊢
      omega
  · have hcoll := hText (fun hc => hcol (Or.inl hc)) (fun hc => hcol (Or.inr hc))
    refine ⟨fun a _ b _ => ?_, fun a _ b _ c _ hab hbc => ?_⟩
    · simp only [compareRows, if_neg hcol, mul_one]
      exact hcoll.1 _ _
    · simp only [compareRows, if_neg hcol, mul_one] at hab hbc ⊢
      exact hcoll.2 _ _ _ hab hbc

theorem ascendingRows_eq (h : Host) (data : List Row) (query genreFilter : String)
    (col : Column) :
    ascendingRows h data query genreFilter col =
      arraySort (compareRows h col 1) (filteredRows h data query genreFilter) := by
  simp [ascendingRows, filteredRows, filteredSortedData]

theorem descendingRows_eq (h : Host) (data : List Row) (query genreFilter : String)
    (col : Column) :
    descendingRows h data query genreFilter col =
      arraySort (fun a b => - compareRows h col 1 a b)
        (filteredRows h data query genreFilter) := by
  rw [← compareRows_neg]
  simp [descendingRows, filteredRows, filteredSortedData]

/-- The facts of the two sorts, stated for the comparator of the code: both
results are permutations of the filtered rows, ordered by the comparator, with
ties in the order of the filtered rows, and the descending result is position by
position the reverse of the ascending one up to ties. -/
theorem sorted_rows_by_comparator (h : Host) (data : List Row) (query genreFilter : String)
    (col : Column)
    (hText : col ≠ Column.PublishedYear → col ≠ Column.ISBN →
      ConsistentCollation h.localeCompare)
    (hNum : col = Column.PublishedYear ∨ col = Column.ISBN →
      ∀ r ∈ filteredRows h data query genreFilter, (h.toNumber (r.get col)).isSome = true) :
    (ascendingRows h data query genreFilter col).Perm (filteredRows h data query genreFilter) ∧
    (descendingRows h data query genreFilter col).Perm (filteredRows h data query genreFilter) ∧
    (ascendingRows h data query genreFilter col).Pairwise
      (fun a b => compareRows h col 1 a b ≤ 0) ∧
    (descendingRows h data query genreFilter col).Pairwise
      (fun a b => 0 ≤ compareRows h col 1 a b) ∧
    (∀ x ∈ filteredRows h data query genreFilter,
      (ascendingRows h data query genreFilter col).filter
          (fun y => decide (compareRows h col 1 x y = 0)) =
        (filteredRows h data query genreFilter).filter
          (fun y => decide (compareRows h col 1 x y = 0)) ∧
      (descendingRows h data query genreFilter col).filter
          (fun y => decide (compareRows h col 1 x y = 0)) =
        (ascendingRows h data query genreFilter col).filter
          (fun y => decide (compareRows h col 1 x y = 0))) ∧
    List.Forall₂ (fun a b => compareRows h col 1 a b = 0)
      (descendingRows h data query genreFilter col)
      (ascendingRows h data query genreFilter col).reverse ∧
    ((∀ a ∈ filteredRows h data query genreFilter,
        ∀ b ∈ filteredRows h data query genreFilter, compareRows h col 1 a b = 0 → a = b) →
      descendingRows h data query genreFilter col =
        (ascendingRows h data query genreFilter col).reverse) := by
  have hc := consistentOn_compareRows h col (filteredRows h data query genreFilter) hText hNum
  have hcn := consistentOn_neg _ _ hc
  rw [ascendingRows_eq, descendingRows_eq]
  have hpA := arraySort_perm (compareRows h col 1) (filteredRows h data query genreFilter)
  have hpD := arraySort_perm (fun a b => - compareRows h col 1 a b)
    (filteredRows h data query genreFilter)
  have hrev := arraySort_neg_reverse (compareRows h col 1)
    (filteredRows h data query genreFilter) hc
  have hstable : ∀ x ∈ filteredRows h data query genreFilter,
      (arraySort (compareRows h col 1) (filteredRows h data query genreFilter)).filter
          (fun y => decide (compareRows h col 1 x y = 0)) =
        (filteredRows h data query genreFilter).filter
          (fun y => decide (compareRows h col 1 x y = 0)) ∧
      (arraySort (fun a b => - compareRows h col 1 a b)
          (filteredRows h data query genreFilter)).filter
          (fun y => decide (compareRows h col 1 x y = 0)) =
        (filteredRows h data query genreFilter).filter
          (fun y => decide (compareRows h col 1 x y = 0)) := by
    intro x hx
    constructor
    · apply arraySort_filter
      intro a ha b hb hxa hxb
      exact tie_le _ _ hc x hx a ha b hb (of_decide_eq_true hxa) (of_decide_eq_true hxb)
    · apply arraySort_filter
      intro a ha b hb hxa hxb
      have h1 := tie_le _ _ hc x hx b hb a ha (of_decide_eq_true hxb) (of_decide_eq_true hxa)
      have h2 := hc.1 b hb a ha
      omega
  refine ⟨hpA, hpD, ?_, ?_, ?_, hrev, ?_⟩
  · exact arraySort_pairwise _ _ hc _ (fun _ hz => hz)
  · have hD := arraySort_pairwise _ _ hcn _ (fun _ hz => hz)
    exact hD.imp (fun hab => by omega)
  · intro x hx
    exact ⟨(hstable x hx).1, (hstable x hx).2.trans (hstable x hx).1.symm⟩
  · intro hdistinct
    have hmem : List.Forall₂ (fun a b : Row => a = b)
        (arraySort (fun a b => - compareRows h col 1 a b)
          (filteredRows h data query genreFilter))
        (arraySort (compareRows h col 1) (filteredRows h data query genreFilter)).reverse := by
      rw [List.forall₂_iff_get] at hrev ⊢
      refine ⟨hrev.1, fun i h₁ h₂ => ?_⟩
      apply hdistinct _ (hpD.mem_iff.mp (List.get_mem _ _ _)) _
        (hpA.mem_iff.mp (List.mem_reverse.mp (List.get_mem _ _ _)))
      exact hrev.2 i h₁ h₂
    exact List.forall₂_eq_eq_eq ▸ hmem

/-- On rows whose keys are comparable the comparator of the ascending sort is
the key order of the specification. -/
theorem compareRows_eq_keyCompare (h : Host) (col : Column) (L : List Row)
    (hNum : col = Column.PublishedYear ∨ col = Column.ISBN →
      ∀ r ∈ L, (h.toNumber (r.get col)).isSome = true)
    (a : Row) (ha : a ∈ L) (b : Row) (hb : b ∈ L) :
    compareRows h col 1 a b = keyCompare h col a b := by
  cases col with
  | Title => simp [compareRows, keyCompare, Row.get]
  | Author => simp [compareRows, keyCompare, Row.get]
  | Genre => simp [compareRows, keyCompare, Row.get]
  | PublishedYear =>
    obtain ⟨x, hx⟩ := Option.isSome_iff_exists.mp (hNum (Or.inl rfl) a ha)
    obtain ⟨y, hy⟩ := Option.isSome_iff_exists.mp (hNum (Or.inl rfl) b hb)
    simp only [Row.get] at hx hy
    simp [compareRows, keyCompare, numberKey, Row.get, hx, hy]
  | ISBN =>
    obtain ⟨x, hx⟩ := Option.isSome_iff_exists.mp (hNum (Or.inr rfl) a ha)
    obtain ⟨y, hy⟩ := Option.isSome_iff_exists.mp (hNum (Or.inr rfl) b hb)
    simp only [Row.get] at hx hy
    simp [compareRows, keyCompare, numberKey, Row.get, hx, hy]

/-- C5: for every working dataset, query, genre filter and column whose keys
are comparable (a consistent collation for a text column; numeric text in all
filtered rows for `PublishedYear` and `ISBN`), with the key order of the
specification (the column's text under the collation, or the column's number):
the ascending and the descending result are permutations of the filtered rows;
the ascending result is ordered by non-decreasing key and the descending result
by non-increasing key; the rows whose key equals that of a given row stand in
both results in the order they have in the filtered working dataset; position
by position the descending result carries a row whose key equals that of the
row in the reversed ascending result; and when no two distinct filtered rows
have equal keys the descending result is the reverse of the ascending result. -/
theorem sort_stable_and_reversible (h : Host) (data : List Row) (query genreFilter : String)
    (col : Column)
    (hText : col ≠ Column.PublishedYear → col ≠ Column.ISBN →
      ConsistentCollation h.localeCompare)
    (hNum : col = Column.PublishedYear ∨ col = Column.ISBN →
      ∀ r ∈ filteredRows h data query genreFilter, (h.toNumber (r.get col)).isSome = true) :
    (ascendingRows h data query genreFilter col).Perm (filteredRows h data query genreFilter) ∧
    (descendingRows h data query genreFilter col).Perm (filteredRows h data query genreFilter) ∧
    (ascendingRows h data query genreFilter col).Pairwise
      (fun a b => keyCompare h col a b ≤ 0) ∧
    (descendingRows h data query genreFilter col).Pairwise
      (fun a b => 0 ≤ keyCompare h col a b) ∧
    (∀ x ∈ filteredRows h data query genreFilter,
      (ascendingRows h data query genreFilter col).filter
          (fun y => decide (keyCompare h col x y = 0)) =
        (filteredRows h data query genreFilter).filter
          (fun y => decide (keyCompare h col x y = 0)) ∧
      (descendingRows h data query genreFilter col).filter
          (fun y => decide (keyCompare h col x y = 0)) =
        (ascendingRows h data query genreFilter col).filter
          (fun y => decide (keyCompare h col x y = 0))) ∧
    List.Forall₂ (fun a b => keyCompare h col a b = 0)
      (descendingRows h data query genreFilter col)
      (ascendingRows h data query genreFilter col).reverse ∧
    ((∀ a ∈ filteredRows h data query genreFilter,
        ∀ b ∈ filteredRows h data query genreFilter, keyCompare h col a b = 0 → a = b) →
      descendingRows h data query genreFilter col =
        (ascendingRows h data query genreFilter col).reverse) := by
  obtain ⟨hpA, hpD, hA, hD, hties, hrev, hdist⟩ :=
    sorted_rows_by_comparator h data query genreFilter col hText hNum
  have hkey := compareRows_eq_keyCompare h col (filteredRows h data query genreFilter) hNum
  have hmA : ∀ a ∈ ascendingRows h data query genreFilter col,
      a ∈ filteredRows h data query genreFilter := fun a ha => hpA.mem_iff.mp ha
  have hmD : ∀ a ∈ descendingRows h data query genreFilter col,
      a ∈ filteredRows h data query genreFilter := fun a ha => hpD.mem_iff.mp ha
  refine ⟨hpA, hpD, ?_, ?_, ?_, ?_, ?_⟩
  · exact hA.imp_of_mem (fun {a b} ha hb hab => by
      rw [← hkey a (hmA a ha) b (hmA b hb)]
      exact hab)
  · exact hD.imp_of_mem (fun {a b} ha hb hab => by
      rw [← hkey a (hmD a ha) b (hmD b hb)]
      exact hab)
  · intro x hx
    have hF : ∀ l : List Row, (∀ y ∈ l, y ∈ filteredRows h data query genreFilter) →
        l.filter (fun y => decide (keyCompare h col x y = 0)) =
          l.filter (fun y => decide (compareRows h col 1 x y = 0)) := by
      intro l hl
      apply List.filter_congr
      intro y hy
      rw [hkey x hx y (hl y hy)]
    rw [hF _ hmA, hF _ hmD, hF _ (fun _ hy => hy)]
    exact hties x hx
  · rw [List.forall₂_iff_get] at hrev ⊢
    refine ⟨hrev.1, fun i h₁ h₂ => ?_⟩
    rw [← hkey _ (hmD _ (List.get_mem _ _ _)) _
      (hmA _ (List.mem_reverse.mp (List.get_mem _ _ _)))]
    exact hrev.2 i h₁ h₂
  · intro hdistinct
    apply hdist
    intro a ha b hb hab
    rw [hkey a ha b hb] at hab
    exact hdistinct a ha b hb hab

/-- C5 (witness): three rows, rows 0 and 2 sharing the year 2001 and the genre
`Fiction`. By `PublishedYear`, ascending gives rows 1, 0, 2 and descending gives
rows 0, 2, 1: the reverse order of years, with the tied rows 0 and 2 in their
dataset order. By `Genre`, a text column, ascending gives rows 1, 0, 2 and
descending gives rows 0, 2, 1 in the same way. -/
theorem sort_stable_and_reversible_witness :
    ConsistentCollation asciiHost.localeCompare ∧
    (∀ r ∈ filteredRows asciiHost tiedYears "" "",
      (asciiHost.toNumber (r.get Column.PublishedYear)).isSome = true) ∧
    List.Forall₂ (fun a b => keyCompare asciiHost Column.PublishedYear a b = 0)
      (descendingRows asciiHost tiedYears "" "" Column.PublishedYear)
      (ascendingRows asciiHost tiedYears "" "" Column.PublishedYear).reverse ∧
    (ascendingRows asciiHost tiedYears "" "" Column.PublishedYear).map Row.id = [1, 0, 2] ∧
    (descendingRows asciiHost tiedYears "" "" Column.PublishedYear).map Row.id = [0, 2, 1] ∧
    (ascendingRows asciiHost tiedYears "" "" Column.Genre).Pairwise
      (fun a b => keyCompare asciiHost Column.Genre a b ≤ 0) ∧
    (descendingRows asciiHost tiedYears "" "" Column.Genre).Pairwise
      (fun a b => 0 ≤ keyCompare asciiHost Column.Genre a b) ∧
    (ascendingRows asciiHost tiedYears "" "" Column.Genre).map Row.id = [1, 0, 2] ∧
    (descendingRows asciiHost tiedYears "" "" Column.Genre).map Row.id = [0, 2, 1] :=
  have hnum : ∀ r ∈ filteredRows asciiHost tiedYears "" "",
      (asciiHost.toNumber (r.get Column.PublishedYear)).isSome = true := by decide
  have hyear := sort_stable_and_reversible asciiHost tiedYears "" "" Column.PublishedYear
    (fun _ _ => codePointCompare_consistent) (fun _ => hnum)
  have hgenre := sort_stable_and_reversible asciiHost tiedYears "" "" Column.Genre
    (fun _ _ => codePointCompare_consistent) (fun hc => absurd hc (by decide))
  ⟨codePointCompare_consistent, hnum, hyear.2.2.2.2.2.1, by decide, by decide,
    hgenre.2.2.1, hgenre.2.2.2.1, by decide, by decide⟩

/-! ### Identifiers passed by the grid -/

theorem mem_of_mem_jsSlice {α : Type} (xs : List α) (start stop : Int) (x : α)
    (hx : x ∈ jsSlice xs start stop) : x ∈ xs := by
  unfold jsSlice at hx
  exact List.mem_of_mem_drop (List.mem_of_mem_take hx)

theorem mem_of_mem_filteredSortedData (h : Host) (data : List Row) (query genreFilter : String)
    (sortBy : SortBy) (x : Row) (hx : x ∈ filteredSortedData h data query genreFilter sortBy) :
    x ∈ data := by
  have hfilters : ∀ y, y ∈ (if genreFilter ≠ "" then
      (if query ≠ "" then data.filter (matchesQuery h (h.toLowerCase query)) else data).filter
        (fun r => r.Genre == genreFilter)
      else (if query ≠ "" then data.filter (matchesQuery h (h.toLowerCase query)) else data)) →
      y ∈ data := by
    intro y hy
    have h1 : y ∈ (if query ≠ "" then data.filter (matchesQuery h (h.toLowerCase query))
        else data) := by
      by_cases hg : genreFilter ≠ ""
      · rw [if_pos hg] at hy
        exact List.mem_of_mem_filter hy
      · rw [if_neg hg] at hy
        exact hy
    by_cases hq : query ≠ ""
    · rw [if_pos hq] at h1
      exact List.mem_of_mem_filter h1
    · rw [if_neg hq] at h1
      exact h1
  unfold filteredSortedData at hx
  cases hcol : sortBy.col with
  | none =>
    simp only [hcol] at hx
    exact hfilters x hx
  | some c =>
    simp only [hcol] at hx
    exact hfilters x ((arraySort_perm _ _).mem_iff.mp hx)

/-- C2 (amended): for every state, every identifier the grid passes to
`handleCellEdit`, the identifier of a row of the current page, is carried by a
row of the working dataset, and the call completes for it. For an identifier
carried by no row of the working dataset the call does not complete: it throws
a `TypeError`; the working dataset it had built by then has every row
unchanged. -/
theorem handleCellEdit_on_page_rows (h : Host) (s : State) (col : Column) (value : String) :
    (∀ row ∈ currentPageRows (visibleRows h s) s.page s.pageSize,
      (∃ r ∈ s.data, r.id = row.id) ∧
      ∃ t, handleCellEdit s row.id col value = Except.ok t) ∧
    (∀ rowId : Nat, (∀ r ∈ s.data, r.id ≠ rowId) →
      handleCellEdit s rowId col value = Except.error JsError.typeError ∧
      s.data.map (fun r => if r.id = rowId then r.set col value else r) = s.data) := by
  constructor
  · intro row hrow
    have hvis : row ∈ visibleRows h s := mem_of_mem_jsSlice _ _ _ _ hrow
    have hdata : row ∈ s.data := mem_of_mem_filteredSortedData _ _ _ _ _ _ hvis
    obtain ⟨r, hr⟩ := (find_id_some_iff s.data row.id).mpr (List.mem_map.mpr ⟨row, hdata, rfl⟩)
    exact ⟨⟨row, hdata, rfl⟩, _, handleCellEdit_ok s row.id col value r hr⟩
  · intro rowId hid
    refine ⟨handleCellEdit_throws_of_unknown s rowId col value hid, ?_⟩
    conv_rhs => rw [← List.map_id s.data]
    apply List.map_congr_left
    intro r hr
    rw [if_neg (hid r hr)]
    rfl

end BookApp
